import Mathlib

/-!
Verification of the SSSI finite-difference seismic forward-modeling core
(`src/fd_cmex/finiteDifference.c` and `src/fd_cmex/fwdTimeCpmlFor2dAw_openmpi_mex.c`)
against its natural-language specification.

Doubles are idealized as exact rationals (`ℚ`) where the code is purely
arithmetic, and as reals (`ℝ`) where `log`/`exp` appear.  MATLAB/MEX arrays
are modelled as index functions together with their extents; the C flat
column-major index `p[j*n1 + i]` corresponds to `val i j`.
-/

namespace SSSI

/-! ## CoefficientSolver (`dCoef`, finiteDifference.c lines 24-76)

`dCoef(order, type)` builds an `order × order` matrix `A` and right-hand
side `b` and solves `A·c = b` by delegating to MATLAB `mldivide`
(`mexCallMATLAB`), which is external to this repository.  We embed the
construction of `(A, b)` from the source and model the external solve by
its specified postcondition `A·c = b` (the predicate `solves`). -/

/-- The regular-grid system: `pA[j*order+i] = pow(j+1, 2*(i+1)-1)`,
`pb[0] = 1.0/2.0`, all other entries of `b` zero (from `mxCreateDoubleMatrix`
zero-initialization).  Entry `(i, j)` of the matrix is `pA[j*order+i]`. -/
def regSys : (ℕ → ℕ → ℚ) × (ℕ → ℚ) :=
  (fun i j => ((j + 1 : ℕ) : ℚ) ^ (2 * (i + 1) - 1),
   fun i => if i = 0 then 1 / 2 else 0)

/-- The staggered-grid system: `pA[j*order+i] = pow(2*(j+1)-1, 2*(i+1)-1)`,
`pb[0] = 1`, all other entries of `b` zero. -/
def staSys : (ℕ → ℕ → ℚ) × (ℕ → ℚ) :=
  (fun i j => ((2 * (j + 1) - 1 : ℕ) : ℚ) ^ (2 * (i + 1) - 1),
   fun i => if i = 0 then 1 else 0)

/-- `dCoef`'s branching on the `type` string: `"r"` selects the regular
system, `"s"` the staggered one, anything else reaches
`mexErrMsgTxt("Type must be \x27s\x27 or \x27r\x27!")`.  The `order`
argument fixes the dimension of the system actually read (the embedded
matrices are total functions; only indices below `order` are meaningful). -/
def dCoefSystem (order : ℕ) (ty : String) :
    Except String ((ℕ → ℕ → ℚ) × (ℕ → ℚ)) :=
  if ty = "r" then .ok regSys
  else if ty = "s" then .ok staSys
  else .error "Type must be \x27s\x27 or \x27r\x27!"

/-- `c` solves the `n × n` leading system of `S`: for every row `i < n`,
`Σ_j S.1 i j * c j = S.2 i`. -/
def solves (n : ℕ) (S : (ℕ → ℕ → ℚ) × (ℕ → ℚ)) (c : ℕ → ℚ) : Prop :=
  ∀ i < n, (∑ j ∈ Finset.range n, S.1 i j * c j) = S.2 i

instance (n : ℕ) (S : (ℕ → ℕ → ℚ) × (ℕ → ℚ)) (c : ℕ → ℚ) :
    Decidable (solves n S c) := by
  unfold solves; infer_instance

/-- The ℓ¹ residual `‖A·c − b‖₁` of candidate solution `c` on the `n × n`
leading system of `S`. -/
def resid (n : ℕ) (S : (ℕ → ℕ → ℚ) × (ℕ → ℚ)) (c : ℕ → ℚ) : ℚ :=
  ∑ i ∈ Finset.range n, |(∑ j ∈ Finset.range n, S.1 i j * c j) - S.2 i|

/-- The exact regular-grid coefficient vector for order 1. -/
def regC1 : ℕ → ℚ := fun i => if i = 0 then 1/2 else 0

/-- The exact regular-grid coefficient vector for order 2. -/
def regC2 : ℕ → ℚ := fun i =>
  if i = 0 then 2/3 else if i = 1 then -(1/12) else 0

/-- The exact regular-grid coefficient vector for order 3. -/
def regC3 : ℕ → ℚ := fun i =>
  if i = 0 then 3/4 else if i = 1 then -(3/20) else if i = 2 then 1/60 else 0

/-- The exact regular-grid coefficient vector for order 4. -/
def regC4 : ℕ → ℚ := fun i =>
  if i = 0 then 4/5 else if i = 1 then -(1/5)
  else if i = 2 then 4/105 else if i = 3 then -(1/280) else 0

/-- The exact regular-grid coefficient vector for order 5. -/
def regC5 : ℕ → ℚ := fun i =>
  if i = 0 then 5/6 else if i = 1 then -(5/21) else if i = 2 then 5/84
  else if i = 3 then -(5/504) else if i = 4 then 1/1260 else 0

/-- The exact regular-grid coefficient vector for order 6. -/
def regC6 : ℕ → ℚ := fun i =>
  if i = 0 then 6/7 else if i = 1 then -(15/56) else if i = 2 then 5/63
  else if i = 3 then -(1/56) else if i = 4 then 1/385
  else if i = 5 then -(1/5544) else 0

/-- The exact staggered-grid coefficient vector for order 1. -/
def staC1 : ℕ → ℚ := fun i => if i = 0 then 1 else 0

/-- The exact staggered-grid coefficient vector for order 2. -/
def staC2 : ℕ → ℚ := fun i =>
  if i = 0 then 9/8 else if i = 1 then -(1/24) else 0

/-- The exact staggered-grid coefficient vector for order 3. -/
def staC3 : ℕ → ℚ := fun i =>
  if i = 0 then 75/64 else if i = 1 then -(25/384)
  else if i = 2 then 3/640 else 0

/-- The exact staggered-grid coefficient vector for order 4. -/
def staC4 : ℕ → ℚ := fun i =>
  if i = 0 then 1225/1024 else if i = 1 then -(245/3072)
  else if i = 2 then 49/5120 else if i = 3 then -(5/7168) else 0

/-- The exact staggered-grid coefficient vector for order 5. -/
def staC5 : ℕ → ℚ := fun i =>
  if i = 0 then 19845/16384 else if i = 1 then -(735/8192)
  else if i = 2 then 567/40960 else if i = 3 then -(405/229376)
  else if i = 4 then 35/294912 else 0

/-- The exact staggered-grid coefficient vector for order 6. -/
def staC6 : ℕ → ℚ := fun i =>
  if i = 0 then 160083/131072 else if i = 1 then -(12705/131072)
  else if i = 2 then 22869/1310720 else if i = 3 then -(5445/1835008)
  else if i = 4 then 847/2359296 else if i = 5 then -(63/2883584) else 0

/-- A vector that solves the system has zero residual. -/
theorem resid_eq_zero_of_solves (n : ℕ) (S : (ℕ → ℕ → ℚ) × (ℕ → ℚ))
    (c : ℕ → ℚ) (h : solves n S c) : resid n S c = 0 := by
  unfold resid
  refine Finset.sum_eq_zero fun i hi => ?_
  rw [h i (Finset.mem_range.mp hi), sub_self, abs_zero]

theorem regC1_solves : solves 1 regSys regC1 := by
  intro i hi
  simp only [regSys, Finset.sum_range_succ, Finset.sum_range_zero]
  interval_cases i <;> norm_num [regC1]

theorem regC2_solves : solves 2 regSys regC2 := by
  intro i hi
  simp only [regSys, Finset.sum_range_succ, Finset.sum_range_zero]
  interval_cases i <;> norm_num [regC2]

theorem regC3_solves : solves 3 regSys regC3 := by
  intro i hi
  simp only [regSys, Finset.sum_range_succ, Finset.sum_range_zero]
  interval_cases i <;> norm_num [regC3]

theorem regC4_solves : solves 4 regSys regC4 := by
  intro i hi
  simp only [regSys, Finset.sum_range_succ, Finset.sum_range_zero]
  interval_cases i <;> norm_num [regC4]

theorem regC5_solves : solves 5 regSys regC5 := by
  intro i hi
  simp only [regSys, Finset.sum_range_succ, Finset.sum_range_zero]
  interval_cases i <;> norm_num [regC5]

set_option maxHeartbeats 1000000 in
theorem regC6_solves : solves 6 regSys regC6 := by
  intro i hi
  simp only [regSys, Finset.sum_range_succ, Finset.sum_range_zero]
  interval_cases i <;> norm_num [regC6]

theorem staC1_solves : solves 1 staSys staC1 := by
  intro i hi
  simp only [staSys, Finset.sum_range_succ, Finset.sum_range_zero]
  interval_cases i <;> norm_num [staC1]

theorem staC2_solves : solves 2 staSys staC2 := by
  intro i hi
  simp only [staSys, Finset.sum_range_succ, Finset.sum_range_zero]
  interval_cases i <;> norm_num [staC2]

theorem staC3_solves : solves 3 staSys staC3 := by
  intro i hi
  simp only [staSys, Finset.sum_range_succ, Finset.sum_range_zero]
  interval_cases i <;> norm_num [staC3]

theorem staC4_solves : solves 4 staSys staC4 := by
  intro i hi
  simp only [staSys, Finset.sum_range_succ, Finset.sum_range_zero]
  interval_cases i <;> norm_num [staC4]

set_option maxHeartbeats 1000000 in
theorem staC5_solves : solves 5 staSys staC5 := by
  intro i hi
  simp only [staSys, Finset.sum_range_succ, Finset.sum_range_zero]
  interval_cases i <;> norm_num [staC5]

set_option maxHeartbeats 1000000 in
theorem staC6_solves : solves 6 staSys staC6 := by
  intro i hi
  simp only [staSys, Finset.sum_range_succ, Finset.sum_range_zero]
  interval_cases i <;> norm_num [staC6]

/-- C1: for every order `n` in {1,…,6} and recognized grid type, `dCoef`
builds the generating system `(A, b)` specified in the spec, that system is
solvable, and any coefficient vector satisfying it (which is what the
delegated `mldivide` solve returns) has residual norm below `1e-10`. -/
theorem dCoef_solves_system (n : ℕ) (ty : String)
    (h1 : 1 ≤ n) (h2 : n ≤ 6) (hty : ty = "r" ∨ ty = "s") :
    ∃ S, dCoefSystem n ty = .ok S ∧ (∃ c, solves n S c) ∧
      ∀ c, solves n S c → resid n S c < 1 / 10 ^ 10 := by
  have hz : ∀ S : (ℕ → ℕ → ℚ) × (ℕ → ℚ), ∀ c, solves n S c →
      resid n S c < 1 / 10 ^ 10 := by
    intro S c hc
    rw [resid_eq_zero_of_solves n S c hc]
    norm_num
  rcases hty with h | h <;> subst h
  · refine ⟨regSys, by simp [dCoefSystem], ?_, hz regSys⟩
    interval_cases n
    exacts [⟨regC1, regC1_solves⟩, ⟨regC2, regC2_solves⟩,
      ⟨regC3, regC3_solves⟩, ⟨regC4, regC4_solves⟩,
      ⟨regC5, regC5_solves⟩, ⟨regC6, regC6_solves⟩]
  · refine ⟨staSys, by simp [dCoefSystem], ?_, hz staSys⟩
    interval_cases n
    exacts [⟨staC1, staC1_solves⟩, ⟨staC2, staC2_solves⟩,
      ⟨staC3, staC3_solves⟩, ⟨staC4, staC4_solves⟩,
      ⟨staC5, staC5_solves⟩, ⟨staC6, staC6_solves⟩]

/-- C1 witness: the theorem instantiated at order 2, staggered type. -/
theorem dCoef_solves_system_witness :
    ∃ S, dCoefSystem 2 "s" = .ok S ∧ (∃ c, solves 2 S c) ∧
      ∀ c, solves 2 S c → resid 2 S c < 1 / 10 ^ 10 :=
  dCoef_solves_system 2 "s" (by norm_num) (by norm_num) (Or.inr rfl)

/-- C4 counterexample: for order 2, staggered type, the generating matrix
entry at row 0, column 1 is `3`, not `1` as the claimed system
`[[1,1],[1,27]]` would have, and the claimed solution
`c ≈ [1.03846, −0.03846]` (exactly `[27/26, −1/26]`) does not satisfy the
generating system the code builds. -/
theorem dCoef_order2_staggered_claim_false :
    dCoefSystem 2 "s" = .ok staSys ∧ staSys.1 0 1 = 3 ∧ (3 : ℚ) ≠ 1 ∧
    ¬ solves 2 staSys (fun i => if i = 0 then 27 / 26 else -(1 / 26)) := by
  refine ⟨by simp [dCoefSystem], by norm_num [staSys], by norm_num, fun h => ?_⟩
  have h0 := h 0 (by norm_num)
  simp only [staSys, Finset.sum_range_succ, Finset.sum_range_zero] at h0
  norm_num at h0

/-- C4 (amended): for order 2, staggered type, the generating linear system
is `[[1,3],[1,27]]·c = [1,0]` and the coefficient vector solving it is
exactly `[9/8, −1/24] ≈ [1.125, −0.041667]`, uniquely. -/
theorem dCoef_order2_staggered (c : ℕ → ℚ) :
    dCoefSystem 2 "s" = .ok staSys ∧
    staSys.1 0 0 = 1 ∧ staSys.1 0 1 = 3 ∧
    staSys.1 1 0 = 1 ∧ staSys.1 1 1 = 27 ∧
    staSys.2 0 = 1 ∧ staSys.2 1 = 0 ∧
    solves 2 staSys staC2 ∧ staC2 0 = 9 / 8 ∧ staC2 1 = -(1 / 24) ∧
    (solves 2 staSys c → c 0 = 9 / 8 ∧ c 1 = -(1 / 24)) := by
  refine ⟨by simp [dCoefSystem], by norm_num [staSys], by norm_num [staSys],
    by norm_num [staSys], by norm_num [staSys], by norm_num [staSys],
    by norm_num [staSys], staC2_solves, by norm_num [staC2],
    by norm_num [staC2], fun h => ?_⟩
  have h0 := h 0 (by norm_num)
  have h1 := h 1 (by norm_num)
  simp only [staSys, Finset.sum_range_succ, Finset.sum_range_zero] at h0 h1
  norm_num at h0 h1
  constructor <;> linarith

/-- C4 witness: the uniqueness component applied to the exact solution. -/
theorem dCoef_order2_staggered_witness :
    staC2 0 = 9 / 8 ∧ staC2 1 = -(1 / 24) := by
  obtain ⟨-, -, -, -, -, -, -, hs, -, -, hu⟩ := dCoef_order2_staggered staC2
  exact hu hs

/-- C5 counterexample: the type string `"regular"` is rejected with the
error message, rather than proceeding to the linear solve. -/
theorem dCoef_rejects_regular :
    dCoefSystem 2 "regular" =
      .error "Type must be \x27s\x27 or \x27r\x27!" := by
  simp [dCoefSystem]

/-- C5 (amended): `dCoef` accepts exactly the type strings `"r"` and `"s"`;
for those it proceeds to the linear solve on the corresponding system, and
every other type string fails with the error message. -/
theorem dCoef_type_validation (n : ℕ) (ty : String) :
    dCoefSystem n "r" = .ok regSys ∧ dCoefSystem n "s" = .ok staSys ∧
    (ty ≠ "r" → ty ≠ "s" →
      dCoefSystem n ty = .error "Type must be \x27s\x27 or \x27r\x27!") := by
  refine ⟨by simp [dCoefSystem], by simp [dCoefSystem], fun hr hs => ?_⟩
  simp [dCoefSystem, hr, hs]

/-- C5 witness: the theorem instantiated at order 3 and type `"x"`. -/
theorem dCoef_type_validation_witness :
    dCoefSystem 3 "r" = .ok regSys ∧ dCoefSystem 3 "s" = .ok staSys ∧
    dCoefSystem 3 "x" = .error "Type must be \x27s\x27 or \x27r\x27!" := by
  obtain ⟨ha, hb, hc⟩ := dCoef_type_validation 3 "x"
  exact ⟨ha, hb, hc (by simp) (by simp)⟩

/-! ## DomainDecomposer (fwdTimeCpmlFor2dAw_openmpi_mex.c lines 119-139)

`avg_nx = nx / numProcesses`, `rem_nx = nx % numProcesses`;
`block_nx = (irank < rem_nx) ? (avg_nx + 1) : avg_nx`; the displacement
`displs_block_nx[irank]` is the running value of `offset_block_nx`, the
prefix sum of the block sizes of ranks `0, …, irank-1`. -/

/-- Number of x-columns assigned to worker `irank`. -/
def blockNx (nx np irank : ℕ) : ℕ :=
  if irank < nx % np then nx / np + 1 else nx / np

/-- Column displacement (offset) of worker `irank`. -/
def displBlockNx (nx np : ℕ) : ℕ → ℕ
  | 0 => 0
  | i + 1 => displBlockNx nx np i + blockNx nx np i

/-- Closed form of the displacement prefix sum. -/
theorem displBlockNx_eq (nx np i : ℕ) :
    displBlockNx nx np i = i * (nx / np) + min i (nx % np) := by
  induction i with
  | zero => simp [displBlockNx]
  | succ k ih =>
    simp only [displBlockNx, blockNx, ih, Nat.succ_mul]
    by_cases h : k < nx % np <;> simp only [h, if_true, if_false] <;> omega

/-- The displacements are monotone in the rank. -/
theorem displBlockNx_mono (nx np : ℕ) {i j : ℕ} (h : i ≤ j) :
    displBlockNx nx np i ≤ displBlockNx nx np j := by
  induction j, h using Nat.le_induction with
  | base => exact Nat.le_refl _
  | succ n hn ih => exact Nat.le_trans ih (Nat.le_add_right _ _)

/-- Every column below the running offset falls in some earlier block. -/
theorem displBlockNx_cover (nx np x m : ℕ)
    (hx : x < displBlockNx nx np m) :
    ∃ i, i < m ∧ displBlockNx nx np i ≤ x ∧
      x < displBlockNx nx np (i + 1) := by
  induction m with
  | zero => simp [displBlockNx] at hx
  | succ k ih =>
    by_cases h : x < displBlockNx nx np k
    · obtain ⟨i, hi, ha, hb⟩ := ih h
      exact ⟨i, Nat.lt_succ_of_lt hi, ha, hb⟩
    · exact ⟨k, Nat.lt_succ_self k, Nat.le_of_not_lt h, hx⟩

/-- C3: for `nx ≥ numWorkers ≥ 1` the decomposition yields contiguous
blocks (offsets are prefix sums of the sizes), every block is nonempty and
stays inside `[0, nx)`, any two sizes differ by at most 1 with the first
`nx mod numWorkers` workers holding the larger size, every column of
`[0, nx)` lies in exactly one block (coverage plus pairwise disjointness:
an earlier block ends no later than a later block begins). -/
theorem domain_decomposition_correct (nx np : ℕ)
    (h1 : 1 ≤ np) (h2 : np ≤ nx) :
    displBlockNx nx np 0 = 0 ∧
    displBlockNx nx np np = nx ∧
    (∀ i, displBlockNx nx np (i + 1) =
      displBlockNx nx np i + blockNx nx np i) ∧
    (∀ i, 1 ≤ blockNx nx np i) ∧
    (∀ i, i < np → displBlockNx nx np (i + 1) ≤ nx) ∧
    (∀ i j, blockNx nx np i ≤ blockNx nx np j + 1) ∧
    (∀ i, i < nx % np → blockNx nx np i = nx / np + 1) ∧
    (∀ i, nx % np ≤ i → blockNx nx np i = nx / np) ∧
    (∀ x, x < nx → ∃ i, i < np ∧ displBlockNx nx np i ≤ x ∧
      x < displBlockNx nx np (i + 1)) ∧
    (∀ i j, i < j →
      displBlockNx nx np i + blockNx nx np i ≤ displBlockNx nx np j) := by
  have havg : 1 ≤ nx / np := (Nat.one_le_div_iff h1).mpr h2
  have hrem : nx % np < np := Nat.mod_lt nx h1
  have htot : displBlockNx nx np np = nx := by
    rw [displBlockNx_eq, Nat.min_eq_right (Nat.le_of_lt hrem)]
    exact Nat.div_add_mod nx np
  refine ⟨rfl, htot, fun i => rfl, ?_, ?_, ?_, ?_, ?_, ?_, ?_⟩
  · intro i
    unfold blockNx
    split <;> omega
  · intro i hi
    exact Nat.le_trans (displBlockNx_mono nx np hi) (Nat.le_of_eq htot)
  · intro i j
    unfold blockNx
    split <;> split <;> omega
  · intro i hi
    simp [blockNx, hi]
  · intro i hi
    simp [blockNx, Nat.not_lt.mpr hi]
  · intro x hx
    rw [← htot] at hx
    exact displBlockNx_cover nx np x np hx
  · intro i j hij
    exact displBlockNx_mono nx np hij

/-- C3 witness: the decomposition of 5 columns over 2 workers gives sizes
3 and 2 with total offset 5. -/
theorem domain_decomposition_correct_witness :
    displBlockNx 5 2 2 = 5 ∧ blockNx 5 2 0 = 3 ∧ blockNx 5 2 1 = 2 := by
  obtain ⟨-, ht, -, -, -, -, hbig, hsmall, -, -⟩ :=
    domain_decomposition_correct 5 2 (by norm_num) (by norm_num)
  refine ⟨ht, ?_, ?_⟩
  · have := hbig 0 (by norm_num)
    omega
  · have := hsmall 1 (by norm_num)
    omega

/-! ## DifferenceOperator (`diffOperator`, finiteDifference.c lines 80-246)

A 2-D MATLAB array of extents `n1 × n2` is modelled as an index function:
the C flat column-major element `pData[j*n1 + i]` is `val i j`; a 3-D
array adds a third index with `pData[k*(n1*n2) + j*n1 + i] = val i j k`.
The C `mwSize` extents are unsigned 64-bit values, so the output-extent
computation `n1 - l` (with `l = 2*order - 1`) wraps modulo `2^64`. -/

/-- Unsigned 64-bit subtraction as performed on `mwSize` extents. -/
def mwSub (n l : ℕ) : ℕ := (2 ^ 64 + n - l) % 2 ^ 64

/-- A 2-D dense array: extents and the index function. -/
structure Arr2 where
  n1 : ℕ
  n2 : ℕ
  val : ℕ → ℕ → ℝ

/-- A 3-D dense array: extents and the index function. -/
structure Arr3 where
  n1 : ℕ
  n2 : ℕ
  n3 : ℕ
  val : ℕ → ℕ → ℕ → ℝ

/-- Value of one output element after the first `m` passes of the outer
`iOrder` loop of `diffOperator`: the output array starts zeroed
(`mxCreateDoubleMatrix`), and pass `iOrder` adds
`pCoeff[iOrder] * (pData[idx1] - pData[idx2]) / dist` where, at output
position `p` along the differenced axis, `idx1 = order + iOrder + p` and
`idx2 = (order - (iOrder+1)) + p`.  `g` is the 1-D section of the input
along that axis with the other indices held fixed. -/
noncomputable def stencilAcc (g : ℕ → ℝ) (coeff : List ℝ) (dist : ℝ)
    (order p : ℕ) : ℕ → ℝ
  | 0 => 0
  | m + 1 => stencilAcc g coeff dist order p m +
      coeff.getD m 0 * (g (order + m + p) - g (order - (m + 1) + p)) / dist

/-- The 2-D branch of `diffOperator` (`ndims <= 2`): `dim` below 1 is
clamped to 1 (`if (dim < 1) dim = 1`), then `dim == 1` differences the
first axis, anything else takes the `dim == 2` branch.
`order = mxGetNumberOfElements(coeff)` and `l = 2*order - 1`. -/
noncomputable def diffOperator2D (data : Arr2) (coeff : List ℝ) (dist : ℝ)
    (dim : ℤ) : Arr2 :=
  let d := if dim < 1 then 1 else dim
  let order := coeff.length
  let l := 2 * order - 1
  if d = 1 then
    ⟨mwSub data.n1 l, data.n2,
      fun i j => stencilAcc (fun a => data.val a j) coeff dist order i order⟩
  else
    ⟨data.n1, mwSub data.n2 l,
      fun i j => stencilAcc (fun a => data.val i a) coeff dist order j order⟩

/-- The 3-D branch of `diffOperator` (`ndims > 2`): after the same
clamping, `dim == 1` and `dim == 2` difference the first and second axes
and anything else takes the `dim == 3` branch. -/
noncomputable def diffOperator3D (data : Arr3) (coeff : List ℝ) (dist : ℝ)
    (dim : ℤ) : Arr3 :=
  let d := if dim < 1 then 1 else dim
  let order := coeff.length
  let l := 2 * order - 1
  if d = 1 then
    ⟨mwSub data.n1 l, data.n2, data.n3,
      fun i j k =>
        stencilAcc (fun a => data.val a j k) coeff dist order i order⟩
  else if d = 2 then
    ⟨data.n1, mwSub data.n2 l, data.n3,
      fun i j k =>
        stencilAcc (fun a => data.val i a k) coeff dist order j order⟩
  else
    ⟨data.n1, data.n2, mwSub data.n3 l,
      fun i j k =>
        stencilAcc (fun a => data.val i j a) coeff dist order k order⟩

/-- Unsigned `mwSize` subtraction agrees with truncated subtraction when
no wrap occurs. -/
theorem mwSub_eq_sub {n l : ℕ} (h1 : l ≤ n) (h2 : n < 2 ^ 64) :
    mwSub n l = n - l := by
  unfold mwSub
  omega

/-- The accumulated passes equal the weighted symmetric-difference sum. -/
theorem stencilAcc_eq_sum (g : ℕ → ℝ) (coeff : List ℝ) (dist : ℝ)
    (order p m : ℕ) :
    stencilAcc g coeff dist order p m =
      ∑ k ∈ Finset.range m,
        coeff.getD k 0 * (g (p + order + k) - g (p + (order - 1 - k))) / dist := by
  induction m with
  | zero => simp [stencilAcc]
  | succ n ih =>
    rw [Finset.sum_range_succ, stencilAcc, ih]
    have e1 : order + n + p = p + order + n := by omega
    have e2 : order - (n + 1) + p = p + (order - 1 - n) := by omega
    rw [e1, e2]

/-- C2: for any 2-D or 3-D input, coefficient vector of positive length
`order` and valid axis (`2*order − 1` below the differenced extent, which
as an `mwSize` is below `2^64`), `diffOperator` returns an array whose
extent along the differenced axis is the input extent minus `2*order − 1`,
whose other extents are unchanged, and whose every interior entry is the
weighted symmetric difference
`Σ_{k<order} coeff[k] * (data[p+order+k] − data[p+order−1−k]) / dist`. -/
theorem diffOperator_correct (coeff : List ℝ) (dist : ℝ)
    (A : Arr2) (B : Arr3) (horder : 1 ≤ coeff.length) :
    (2 * coeff.length - 1 < A.n1 → A.n1 < 2 ^ 64 →
      (diffOperator2D A coeff dist 1).n1 = A.n1 - (2 * coeff.length - 1) ∧
      (diffOperator2D A coeff dist 1).n2 = A.n2 ∧
      ∀ p j, p < A.n1 - (2 * coeff.length - 1) →
        (diffOperator2D A coeff dist 1).val p j =
          ∑ k ∈ Finset.range coeff.length,
            coeff.getD k 0 * (A.val (p + coeff.length + k) j -
              A.val (p + (coeff.length - 1 - k)) j) / dist) ∧
    (2 * coeff.length - 1 < A.n2 → A.n2 < 2 ^ 64 →
      (diffOperator2D A coeff dist 2).n1 = A.n1 ∧
      (diffOperator2D A coeff dist 2).n2 = A.n2 - (2 * coeff.length - 1) ∧
      ∀ i p, p < A.n2 - (2 * coeff.length - 1) →
        (diffOperator2D A coeff dist 2).val i p =
          ∑ k ∈ Finset.range coeff.length,
            coeff.getD k 0 * (A.val i (p + coeff.length + k) -
              A.val i (p + (coeff.length - 1 - k))) / dist) ∧
    (2 * coeff.length - 1 < B.n1 → B.n1 < 2 ^ 64 →
      (diffOperator3D B coeff dist 1).n1 = B.n1 - (2 * coeff.length - 1) ∧
      (diffOperator3D B coeff dist 1).n2 = B.n2 ∧
      (diffOperator3D B coeff dist 1).n3 = B.n3 ∧
      ∀ p j k, p < B.n1 - (2 * coeff.length - 1) →
        (diffOperator3D B coeff dist 1).val p j k =
          ∑ m ∈ Finset.range coeff.length,
            coeff.getD m 0 * (B.val (p + coeff.length + m) j k -
              B.val (p + (coeff.length - 1 - m)) j k) / dist) ∧
    (2 * coeff.length - 1 < B.n2 → B.n2 < 2 ^ 64 →
      (diffOperator3D B coeff dist 2).n1 = B.n1 ∧
      (diffOperator3D B coeff dist 2).n2 = B.n2 - (2 * coeff.length - 1) ∧
      (diffOperator3D B coeff dist 2).n3 = B.n3 ∧
      ∀ i p k, p < B.n2 - (2 * coeff.length - 1) →
        (diffOperator3D B coeff dist 2).val i p k =
          ∑ m ∈ Finset.range coeff.length,
            coeff.getD m 0 * (B.val i (p + coeff.length + m) k -
              B.val i (p + (coeff.length - 1 - m)) k) / dist) ∧
    (2 * coeff.length - 1 < B.n3 → B.n3 < 2 ^ 64 →
      (diffOperator3D B coeff dist 3).n1 = B.n1 ∧
      (diffOperator3D B coeff dist 3).n2 = B.n2 ∧
      (diffOperator3D B coeff dist 3).n3 = B.n3 - (2 * coeff.length - 1) ∧
      ∀ i j p, p < B.n3 - (2 * coeff.length - 1) →
        (diffOperator3D B coeff dist 3).val i j p =
          ∑ m ∈ Finset.range coeff.length,
            coeff.getD m 0 * (B.val i j (p + coeff.length + m) -
              B.val i j (p + (coeff.length - 1 - m))) / dist) := by
  refine ⟨fun hl hb => ?_, fun hl hb => ?_, fun hl hb => ?_,
    fun hl hb => ?_, fun hl hb => ?_⟩ <;>
    norm_num [diffOperator2D, diffOperator3D,
      mwSub_eq_sub (Nat.le_of_lt hl) hb] <;>
    (intros; rw [stencilAcc_eq_sum]; simp only [List.getD_eq_getElem?_getD])

/-- C2 witness: order 1 on a 3×2 array whose value is the row index; the
axis-1 derivative has extent 2 and its entries evaluate by the formula. -/
theorem diffOperator_correct_witness :
    (diffOperator2D ⟨3, 2, fun i _ => (i : ℝ)⟩ [1] 1 1).n1 = 2 ∧
    (diffOperator2D ⟨3, 2, fun i _ => (i : ℝ)⟩ [1] 1 1).n2 = 2 ∧
    (diffOperator2D ⟨3, 2, fun i _ => (i : ℝ)⟩ [1] 1 1).val 0 0 =
      ∑ k ∈ Finset.range 1,
        [(1 : ℝ)].getD k 0 *
          (((0 + 1 + k : ℕ) : ℝ) - ((0 + (1 - 1 - k) : ℕ) : ℝ)) / 1 := by
  obtain ⟨h1, h2, h3⟩ :=
    (diffOperator_correct [1] 1 ⟨3, 2, fun i _ => (i : ℝ)⟩
      ⟨1, 1, 1, fun _ _ _ => 0⟩ (by norm_num)).1 (by norm_num) (by norm_num)
  exact ⟨h1, h2, h3 0 0 (by norm_num)⟩

/-- C6: the code raises no error when `2*order − 1 ≥ extent`.  With first
extent 4 and a 3-element coefficient vector (`2*order − 1 = 5 > 4`) along
axis 1, `diffOperator` proceeds: the unsigned `mwSize` output-extent
computation `n1 − l` wraps to `2^64 − 1` instead of failing with an
InvalidArgument error. -/
theorem diffOperator_no_order_guard :
    (diffOperator2D ⟨4, 2, fun _ _ => 0⟩ [1, 1, 1] 1 1).n1 = 2 ^ 64 - 1 ∧
    (diffOperator2D ⟨4, 2, fun _ _ => 0⟩ [1, 1, 1] 1 1).n2 = 2 := by
  norm_num [diffOperator2D, mwSub]

/-- C10: on 2-D data `diffOperator` never rejects the axis index: an axis
below 1 is clamped to 1 (`if (dim < 1) dim = 1`), axis 1 takes the
first-axis branch, and any other value — 2, 3 or greater — takes the
second-axis branch; the result always equals the axis-1 or axis-2
derivative array. -/
theorem diffOperator2D_axis_clamp (data : Arr2) (coeff : List ℝ)
    (dist : ℝ) (dim : ℤ) :
    diffOperator2D data coeff dist dim =
      diffOperator2D data coeff dist (if dim ≤ 1 then 1 else 2) := by
  unfold diffOperator2D
  by_cases h1 : dim < 1
  · have h2 : dim ≤ 1 := by omega
    simp [h1, h2]
  · by_cases h2 : dim = 1
    · subst h2
      norm_num
    · have h3 : ¬ dim ≤ 1 := by omega
      norm_num [h1, h2, h3]

/-! ## CpmlProfileBuilder (`dampPml`, finiteDifference.c lines 250-289)

`dampPml(u, v, L)` computes `d0 = -(3*v)/(2*L) * log(R)` with
`R = 1e-6` fixed and then `d = d0 .* (u/L).^2`, per point in two loop
nests.  The arrays are index functions; `pd[j*m+i]` is position `(i, j)`. -/

/-- The constant `logR = log(R)` with `R = 1e-6`. -/
noncomputable def logR : ℝ := Real.log (1 / 1000000)

/-- The intermediate array `pd0[j*m+i] = -(3.0 * pv[j*m+i])/(2*L) * logR`. -/
noncomputable def dampD0 (v : ℕ → ℕ → ℝ) (L : ℝ) (i j : ℕ) : ℝ :=
  -(3 * v i j) / (2 * L) * logR

/-- The result `pd[j*m+i] = pd0[j*m+i] * (pu[j*m+i]/L) * (pu[j*m+i]/L)`. -/
noncomputable def dampPml (u v : ℕ → ℕ → ℝ) (L : ℝ) (i j : ℕ) : ℝ :=
  dampD0 v L i j * (u i j / L) * (u i j / L)

/-- The damping value as a function of one point's distance `u`, velocity
`v` and width `L` — `dampPml` is this function applied pointwise. -/
noncomputable def dampPoint (u v L : ℝ) : ℝ :=
  -(3 * v) / (2 * L) * logR * (u / L) * (u / L)

/-- C7: `dampPml` computes, at every point of same-shaped inputs `u` and
`v`, exactly `d0 * (u/L)^2` with `d0 = -(3*v)/(2*L) * ln(1e-6)`; it is a
pure function of its arguments (the embedding returns a fresh array and
leaves `u`, `v` untouched; `R` is a local constant). -/
theorem dampPml_formula (u v : ℕ → ℕ → ℝ) (L : ℝ) (i j : ℕ) :
    dampPml u v L i j =
      -(3 * v i j) / (2 * L) * Real.log (1 / 1000000) * (u i j / L) ^ 2 := by
  unfold dampPml dampD0 logR
  ring

/-- The pointwise reading of `dampPml`. -/
theorem dampPml_eq_dampPoint (u v : ℕ → ℕ → ℝ) (L : ℝ) (i j : ℕ) :
    dampPml u v L i j = dampPoint (u i j) (v i j) L := rfl

/-- C8 counterexample: with velocity `v = 0` (allowed by the claim's
non-negativity hypotheses) and width `L = 1`, the damping at `|u| = 1`
does not exceed the damping at `u = 0` — both are `0` — so the damping is
not strictly increasing in `|u|`. -/
theorem dampPml_not_strictly_increasing :
    (0 : ℝ) ≤ 0 ∧ (0 : ℝ) ≤ 1 ∧ |(0 : ℝ)| < |(1 : ℝ)| ∧
    ¬ dampPoint 0 0 1 < dampPoint 1 0 1 := by
  norm_num [dampPoint]

/-- The reflection-coefficient logarithm is negative. -/
theorem logR_neg : logR < 0 := by
  unfold logR
  exact Real.log_neg (by norm_num) (by norm_num)

/-- C8 (amended): for strictly positive velocity `v` and width `L`, the
damping is zero at `u = 0` and strictly increasing in `|u|`; it is
non-negative already for every non-negative velocity. -/
theorem dampPml_profile_shape (v L : ℝ) (hv : 0 < v) (hL : 0 < L) :
    dampPoint 0 v L = 0 ∧
    (∀ u1 u2 : ℝ, |u1| < |u2| → dampPoint u1 v L < dampPoint u2 v L) ∧
    (∀ u v0 : ℝ, 0 ≤ v0 → 0 ≤ dampPoint u v0 L) := by
  have hlog := logR_neg
  refine ⟨by simp [dampPoint], fun u1 u2 h => ?_, fun u v0 hv0 => ?_⟩
  · have hD : 0 < -(3 * v) / (2 * L) * logR := by
      have h1 : -(3 * v) / (2 * L) < 0 :=
        div_neg_of_neg_of_pos (by linarith) (by linarith)
      exact mul_pos_of_neg_of_neg h1 hlog
    have e : ∀ u : ℝ, dampPoint u v L =
        -(3 * v) / (2 * L) * logR / L ^ 2 * u ^ 2 := fun u => by
      unfold dampPoint
      field_simp
      ring
    rw [e u1, e u2]
    have hsq : u1 ^ 2 < u2 ^ 2 := by
      have h2 : |u1| ^ 2 < |u2| ^ 2 :=
        pow_lt_pow_left h (abs_nonneg u1) (by norm_num)
      simpa [sq_abs] using h2
    exact mul_lt_mul_of_pos_left hsq (div_pos hD (by positivity))
  · have hD : 0 ≤ -(3 * v0) / (2 * L) * logR := by
      have h1 : -(3 * v0) / (2 * L) ≤ 0 :=
        div_nonpos_of_nonpos_of_nonneg (by linarith) (by linarith)
      exact mul_nonneg_of_nonpos_of_nonpos h1 (le_of_lt hlog)
    have e : dampPoint u v0 L =
        -(3 * v0) / (2 * L) * logR * (u / L * (u / L)) := by
      unfold dampPoint
      ring
    rw [e]
    exact mul_nonneg hD (mul_self_nonneg _)

/-- C8 witness: the amended theorem at `v = 1`, `L = 1`, comparing
`u = 0` against `u = 1`. -/
theorem dampPml_profile_shape_witness :
    dampPoint 0 1 1 = 0 ∧ dampPoint 0 1 1 < dampPoint 1 1 1 ∧
    0 ≤ dampPoint 1 1 1 := by
  obtain ⟨h0, hmono, hnn⟩ := dampPml_profile_shape 1 1 (by norm_num) (by norm_num)
  exact ⟨h0, hmono 0 1 (by norm_num), hnn 1 1 (by norm_num)⟩

/-! ## Z-axis CPML damping (fwdTimeCpmlFor2dAw_openmpi_mex.c lines 308-327)

The raw-buffer `dampPml(double*, double*, mwSize, mwSize, double)` variant
called here is declared in `finiteDifference.h`, whose raw-buffer
implementation is not under src/.  Modelled from the spec: §4.3 gives the
per-point formula `d0 * (u/L)^2`, `d0 = -(3*v)/(2*L) * ln(1e-6)`, which
coincides with the per-point computation of the `dampPml` in
finiteDifference.c embedded above, so the same `dampPml` is applied to
the `boundary × block_nx` buffers built below.  `V` is the worker's local
velocity-model slice (`pVelocityModel_local[j*nz + i] = V i j`). -/

/-- Distance buffer `puDampDown_local[j*boundary + i] = (i + 1) * dz`. -/
noncomputable def puDampDown (dz : ℝ) (i j : ℕ) : ℝ := ((i : ℝ) + 1) * dz

/-- Velocity buffer `pvDampDown_local[j*boundary + i] =
pVelocityModel_local[j*nz + (nz - boundary + i)]`. -/
def pvDampDown (nz boundary : ℕ) (V : ℕ → ℕ → ℝ) (i j : ℕ) : ℝ :=
  V (nz - boundary + i) j

/-- The bottom-edge damping block
`pzDampDown_local = dampPml(puDampDown_local, pvDampDown_local, boundary, block_nx, boundary*dz)`. -/
noncomputable def pzDampDown (nz boundary : ℕ) (dz : ℝ)
    (V : ℕ → ℕ → ℝ) : ℕ → ℕ → ℝ :=
  dampPml (puDampDown dz) (pvDampDown nz boundary V) (boundary * dz)

/-- The full-height damping `pzDamp_local`: zero-initialized (`mxCalloc`);
rows `nz-boundary ≤ i < nz` receive
`pzDampDown_local[j*boundary + (i - (nz - boundary))]`. -/
noncomputable def pzDamp (nz boundary : ℕ) (dz : ℝ)
    (V : ℕ → ℕ → ℝ) (i j : ℕ) : ℝ :=
  if nz - boundary ≤ i ∧ i < nz then
    pzDampDown nz boundary dz V (i - (nz - boundary)) j
  else 0

/-- The per-step z decay factors
`pzb_local[j*nz + i] = exp(-pzDamp_local[j*nz + i] * dt)`. -/
noncomputable def pzb (nz boundary : ℕ) (dz dt : ℝ)
    (V : ℕ → ℕ → ℝ) (i j : ℕ) : ℝ :=
  Real.exp (-pzDamp nz boundary dz V i j * dt)

/-- C9: the z damping is zero in every row `i < nz − boundary` (the
shallow, surface side is undamped), the lowest `boundary` rows carry the
quadratic profile built from distance `(k+1)*dz` and the velocity at that
very grid point, and the decay factor is `exp(-damping * dt)` pointwise —
hence exactly 1 everywhere outside the bottom padding. -/
theorem zDamp_free_surface (nz boundary : ℕ) (dz dt : ℝ)
    (V : ℕ → ℕ → ℝ) (hb : boundary ≤ nz) :
    (∀ i j, i < nz - boundary → pzDamp nz boundary dz V i j = 0) ∧
    (∀ k j, k < boundary →
      pzDamp nz boundary dz V (nz - boundary + k) j =
        dampPoint (((k : ℝ) + 1) * dz) (V (nz - boundary + k) j)
          (boundary * dz)) ∧
    (∀ i j, pzb nz boundary dz dt V i j =
      Real.exp (-pzDamp nz boundary dz V i j * dt)) ∧
    (∀ i j, i < nz - boundary → pzb nz boundary dz dt V i j = 1) := by
  have hzero : ∀ i j, i < nz - boundary → pzDamp nz boundary dz V i j = 0 := by
    intro i j hi
    unfold pzDamp
    rw [if_neg]
    omega
  refine ⟨hzero, fun k j hk => ?_, fun i j => rfl, fun i j hi => ?_⟩
  · unfold pzDamp
    rw [if_pos (by omega)]
    have e : nz - boundary + k - (nz - boundary) = k := by omega
    rw [e]
    unfold pzDampDown
    rw [dampPml_eq_dampPoint]
    unfold puDampDown pvDampDown
    rfl
  · unfold pzb
    rw [hzero i j hi]
    simp

/-- C9 witness: two rows over a single-row bottom padding with unit
velocity and spacing: the surface row is undamped with decay factor 1,
the bottom row carries the quadratic profile at distance `dz`. -/
theorem zDamp_free_surface_witness :
    pzDamp 2 1 1 (fun _ _ => 1) 0 0 = 0 ∧
    pzb 2 1 1 1 (fun _ _ => 1) 0 0 = 1 ∧
    pzDamp 2 1 1 (fun _ _ => 1) 1 0 = dampPoint ((0 + 1) * 1) 1 (1 * 1) := by
  obtain ⟨h0, hq, -, h1⟩ :=
    zDamp_free_surface 2 1 1 1 (fun _ _ => 1) (by norm_num)
  refine ⟨h0 0 0 (by norm_num), h1 0 0 (by norm_num), ?_⟩
  have h2 := hq 0 0 (by norm_num)
  norm_num at h2 ⊢
  exact h2

end SSSI
